import Mathlib

set_option maxRecDepth 8000

/-! Verification of the news-RAG backend's core logic: the chunker of the
ingest script, the generation retry/fallback orchestrator, the
content-addressed upsert ids, the embedding client, the grounded-prompt
builder and the chat request handler of `server.js`.  JavaScript strings
are modelled as lists of characters. -/

/-- JavaScript strings, modelled as their character sequences. -/
abbrev Str := List Char

/-- JS `text.slice(i, e)` for `0 ≤ i ≤ e ≤ text.length`: the characters at
positions `[i, e)`. -/
def jsSlice (text : Str) (i e : Nat) : Str := (text.take e).drop i

/-- Loop of `chunkText(text, chunkSize, overlap, maxChunks)` from the ingest
script: while `i < text.length` and fewer than `maxChunks` chunks were
pushed, push `text.slice(i, end)` with `end = min(i + chunkSize, text.length)`
and set `i = end - overlap`, clamped at zero when negative (truncated `Nat`
subtraction models the clamp `if (i < 0) i = 0`).  The second argument is the
number of chunks that may still be pushed before the `maxChunks` cap. -/
def chunkTextAux (text : Str) (chunkSize overlap : Nat) : Nat → Nat → List Str
  | _, 0 => []
  | i, r + 1 =>
    if i < text.length then
      jsSlice text i (min (i + chunkSize) text.length) ::
        chunkTextAux text chunkSize overlap (min (i + chunkSize) text.length - overlap) r
    else []

/-- `chunkText` of the ingest script (defaults there: 800, 80, 80). -/
def chunkText (text : Str) (chunkSize overlap maxChunks : Nat) : List Str :=
  chunkTextAux text chunkSize overlap 0 maxChunks

/-- The `(start, end)` offset pairs of the chunks pushed by `chunkText`, for a
text of length `L`; `chunkText` only inspects the text through its length and
`slice`. -/
def chunkSpansAux (L chunkSize overlap : Nat) : Nat → Nat → List (Nat × Nat)
  | _, 0 => []
  | i, r + 1 =>
    if i < L then
      (i, min (i + chunkSize) L) ::
        chunkSpansAux L chunkSize overlap (min (i + chunkSize) L - overlap) r
    else []

/-- The chunk spans of `chunkText text chunkSize overlap maxChunks`. -/
def chunkSpans (L chunkSize overlap maxChunks : Nat) : List (Nat × Nat) :=
  chunkSpansAux L chunkSize overlap 0 maxChunks

/-- Adjacency check on a span list: every span after the first starts exactly
`overlap` characters before the previous span's end. -/
def adjacentChk (overlap : Nat) : List (Nat × Nat) → Bool
  | a :: b :: t => decide (b.1 + overlap = a.2) && adjacentChk overlap (b :: t)
  | _ => true

/-- Clamped adjacency check: every span after the first starts at the
previous span's end minus `overlap`, truncated at zero (exactly the cursor
update `i = end - overlap; if (i < 0) i = 0` of the code); it holds for every
text, and coincides with `adjacentChk` whenever the previous end is at least
`overlap`. -/
def adjacentClampChk (overlap : Nat) : List (Nat × Nat) → Bool
  | a :: b :: t => decide (b.1 = a.2 - overlap) && adjacentClampChk overlap (b :: t)
  | _ => true

theorem chunkTextAux_eq_spans (text : Str) (C O : Nat) :
    ∀ r i, chunkTextAux text C O i r =
      (chunkSpansAux text.length C O i r).map (fun p => jsSlice text p.1 p.2) := by
  intro r
  induction r with
  | zero => intro i; rfl
  | succ r ih =>
    intro i
    simp only [chunkTextAux, chunkSpansAux]
    by_cases h : i < text.length
    · simp [h, ih]
    · simp [h]

theorem chunkText_eq_spans (text : Str) (C O M : Nat) :
    chunkText text C O M =
      (chunkSpans text.length C O M).map (fun p => jsSlice text p.1 p.2) :=
  chunkTextAux_eq_spans text C O M 0

theorem chunkSpansAux_head (L C O : Nat) (r i : Nat) (hi : i < L) :
    chunkSpansAux L C O i (r + 1) =
      (i, min (i + C) L) :: chunkSpansAux L C O (min (i + C) L - O) r := by
  simp [chunkSpansAux, hi]

theorem chunkSpansAux_bounds (L C O : Nat) (hC : 0 < C) :
    ∀ r i, ∀ p ∈ chunkSpansAux L C O i r, p.1 < p.2 ∧ p.2 ≤ L := by
  intro r
  induction r with
  | zero => intro i p hp; simp [chunkSpansAux] at hp
  | succ r ih =>
    intro i p hp
    simp only [chunkSpansAux] at hp
    by_cases h : i < L
    · rw [if_pos h] at hp
      rcases List.mem_cons.mp hp with h1 | h2
      · subst h1
        refine ⟨lt_min (by omega) h, min_le_right _ _⟩
      · exact ih _ p h2
    · rw [if_neg h] at hp; simp at hp

theorem chunkSpansAux_adjacent (L C O : Nat) (hO : O < C) (hOL : O ≤ L) :
    ∀ r i, adjacentChk O (chunkSpansAux L C O i r) = true := by
  intro r
  induction r with
  | zero => intro i; rfl
  | succ r ih =>
    intro i
    simp only [chunkSpansAux]
    by_cases h : i < L
    · rw [if_pos h]
      rcases hr : chunkSpansAux L C O (min (i + C) L - O) r with _ | ⟨b, t⟩
      · rfl
      · have hchk := ih (min (i + C) L - O)
        rw [hr] at hchk
        have hb : b.1 = min (i + C) L - O := by
          rcases r with _ | r
          · simp [chunkSpansAux] at hr
          · simp only [chunkSpansAux] at hr
            by_cases h2 : min (i + C) L - O < L
            · rw [if_pos h2] at hr
              exact (Prod.mk.injEq _ _ _ _).mp (List.cons.injEq .. ▸ hr |>.1) |>.1.symm ▸ rfl
            · rw [if_neg h2] at hr; simp at hr
        have hOe : O ≤ min (i + C) L := by
          have : O ≤ min C L := le_min (le_of_lt hO) hOL
          exact le_trans this (min_le_min (by omega) le_rfl)
        simp only [adjacentChk, hb]
        rw [Nat.sub_add_cancel hOe]
        simp [hchk]
    · rw [if_neg h]; rfl

theorem chunkSpansAux_adjacent_clamp (L C O : Nat) :
    ∀ r i, adjacentClampChk O (chunkSpansAux L C O i r) = true := by
  intro r
  induction r with
  | zero => intro i; rfl
  | succ r ih =>
    intro i
    simp only [chunkSpansAux]
    by_cases h : i < L
    · rw [if_pos h]
      rcases hr : chunkSpansAux L C O (min (i + C) L - O) r with _ | ⟨b, t⟩
      · rfl
      · have hchk := ih (min (i + C) L - O)
        rw [hr] at hchk
        have hb : b.1 = min (i + C) L - O := by
          rcases r with _ | r
          · simp [chunkSpansAux] at hr
          · simp only [chunkSpansAux] at hr
            by_cases h2 : min (i + C) L - O < L
            · rw [if_pos h2] at hr
              exact (Prod.mk.injEq _ _ _ _).mp (List.cons.injEq .. ▸ hr |>.1) |>.1.symm ▸ rfl
            · rw [if_neg h2] at hr; simp at hr
        simp only [adjacentClampChk, hb]
        simp [hchk]
    · rw [if_neg h]; rfl

theorem chunkSpansAux_tail_last (L C O : Nat) (hO : O < C) :
    ∀ r i, i < L → L ≤ i + C →
      ∃ p, (chunkSpansAux L C O i (r + 1)).getLast? = some p ∧ p.2 = L := by
  intro r
  induction r with
  | zero =>
    intro i hi hic
    have hmin : min (i + C) L = L := min_eq_right hic
    rw [chunkSpansAux_head L C O 0 i hi, hmin]
    exact ⟨(i, L), rfl, rfl⟩
  | succ r ih =>
    intro i hi hic
    have hmin : min (i + C) L = L := min_eq_right hic
    rw [chunkSpansAux_head L C O (r + 1) i hi, hmin]
    by_cases hO0 : O = 0
    · subst hO0
      simp only [Nat.sub_zero]
      have : chunkSpansAux L C 0 L (r + 1) = [] := by
        simp [chunkSpansAux]
      rw [this]
      exact ⟨(i, L), rfl, rfl⟩
    · have hiL : L - O < L := by omega
      have hiC : L ≤ (L - O) + C := by omega
      obtain ⟨p, hp, hp2⟩ := ih (L - O) hiL hiC
      rcases hr : chunkSpansAux L C O (L - O) (r + 1) with _ | ⟨b, t⟩
      · rw [hr] at hp; simp at hp
      · rw [hr] at hp
        exact ⟨p, by rw [List.getLast?_cons_cons]; exact hp, hp2⟩

theorem chunkSpansAux_last (L C O : Nat) (hO : O < C) :
    ∀ r i, i < L → L ≤ i + r * (C - O) →
      ∃ p, (chunkSpansAux L C O i r).getLast? = some p ∧ p.2 = L := by
  intro r
  induction r with
  | zero => intro i hi hle; omega
  | succ r ih =>
    intro i hi hle
    by_cases hic : L ≤ i + C
    · exact chunkSpansAux_tail_last L C O hO r i hi hic
    · push_neg at hic
      have hmin : min (i + C) L = i + C := min_eq_left (le_of_lt hic)
      rw [chunkSpansAux_head L C O r i hi, hmin]
      have hi' : i + C - O < L := by omega
      have hmul : (r + 1) * (C - O) = r * (C - O) + (C - O) := Nat.succ_mul _ _
      have hle' : L ≤ (i + C - O) + r * (C - O) := by omega
      obtain ⟨p, hp, hp2⟩ := ih (i + C - O) hi' hle'
      rcases hr : chunkSpansAux L C O (i + C - O) r with _ | ⟨b, t⟩
      · rw [hr] at hp; simp at hp
      · rw [hr] at hp
        exact ⟨p, by rw [List.getLast?_cons_cons]; exact hp, hp2⟩

theorem cover_of_adjacentClampChk (O : Nat) :
    ∀ (sp : List (Nat × Nat)) (n : Nat), adjacentClampChk O sp = true →
      (∀ a rest, sp = a :: rest → a.1 ≤ n) →
      (∀ p, sp.getLast? = some p → n < p.2) →
      sp ≠ [] → ∃ p, p ∈ sp ∧ p.1 ≤ n ∧ n < p.2 := by
  intro sp
  induction sp with
  | nil => intro n _ _ _ hne; exact absurd rfl hne
  | cons a tail ih =>
    intro n hchk hhead hlast _
    rcases tail with _ | ⟨b, t⟩
    · exact ⟨a, List.mem_singleton.mpr rfl, hhead a [] rfl, hlast a rfl⟩
    · by_cases hn : n < a.2
      · exact ⟨a, List.mem_cons_self .., hhead a (b :: t) rfl, hn⟩
      · push_neg at hn
        have hba : b.1 = a.2 - O := by
          simp only [adjacentClampChk, Bool.and_eq_true, decide_eq_true_eq] at hchk
          exact hchk.1
        have hchk' : adjacentClampChk O (b :: t) = true := by
          simp only [adjacentClampChk, Bool.and_eq_true] at hchk
          exact hchk.2
        obtain ⟨p, hmem, h1, h2⟩ := ih n hchk'
          (fun a' rest' he => by
            rw [List.cons.injEq] at he
            rw [← he.1]
            omega)
          (fun p hp => hlast p (by rw [List.getLast?_cons_cons]; exact hp))
          (by simp)
        exact ⟨p, List.mem_cons_of_mem a hmem, h1, h2⟩

/-- C1: the claim says chunking stops as soon as the cursor reaches the end of
the text, so a non-empty text no longer than `chunkSize` yields exactly one
chunk.  The code instead sets the cursor to `end - overlap`, which stays below
the text length whenever `overlap > 0`, so the loop keeps re-slicing the tail
until the `maxChunks` cap: with the ingest pipeline's parameters
`(800, 80, 80)`, the two-character text "ab" produces 80 identical chunks
instead of the claimed single chunk. -/
theorem chunkText_cursor_never_reaches_end :
    chunkText ("ab".toList) 800 80 80 = List.replicate 80 ['a', 'b'] ∧
    (chunkText ("ab".toList) 800 80 80).length = 80 := by
  decide

/-- C2 counterexample: for the one-character text "a" with `chunkSize = 3`,
`overlap = 2` (so `overlap < chunkSize`) and `maxChunks = 2`, the produced
spans are `[(0,1), (0,1)]`: the second chunk starts at the zero-clamped cursor
and overlaps the first by 1 character, not by `overlap = 2` as the claim
states for every text. -/
theorem chunk_overlap_clamp_cex :
    chunkText ['a'] 3 2 2 = [['a'], ['a']] ∧
    chunkSpans 1 3 2 2 = [(0, 1), (0, 1)] ∧
    adjacentChk 2 (chunkSpans 1 3 2 2) = false := by
  decide

/-- C2 (amended): for every text of length `L` and parameters with
`0 < chunkSize`, `overlap < chunkSize` and `0 < maxChunks`: the chunks are
the slices of the span list; for a non-empty text the first span starts at 0;
every later span starts at the previous span's end minus `overlap`, clamped
at zero — so consecutive chunks overlap by exactly `overlap` characters
whenever additionally `overlap ≤ L`, while texts shorter than the overlap hit
the zero clamp and consecutive chunks overlap by less than `overlap` (the
amendment the counterexample forces); every span is non-empty and stays
inside `[0, L]`; and whenever `L ≤ maxChunks * (chunkSize - overlap)` (the
cap does not truncate) the final span ends exactly at `L` and the spans cover
all of `[0, L)` with no gaps. -/
theorem chunk_spans_coverage (t : Str) (C O M : Nat) (hC : 0 < C) (hO : O < C)
    (hM : 0 < M) :
    chunkText t C O M = (chunkSpans t.length C O M).map (fun p => jsSlice t p.1 p.2) ∧
    (0 < t.length → (chunkSpans t.length C O M).head? = some (0, min C t.length)) ∧
    adjacentClampChk O (chunkSpans t.length C O M) = true ∧
    (O ≤ t.length → adjacentChk O (chunkSpans t.length C O M) = true) ∧
    (∀ p ∈ chunkSpans t.length C O M, p.1 < p.2 ∧ p.2 ≤ t.length) ∧
    (0 < t.length → t.length ≤ M * (C - O) →
      ∃ p, (chunkSpans t.length C O M).getLast? = some p ∧ p.2 = t.length) ∧
    (t.length ≤ M * (C - O) → ∀ n, n < t.length →
      ∃ p, p ∈ chunkSpans t.length C O M ∧ p.1 ≤ n ∧ n < p.2) := by
  have hlast : 0 < t.length → t.length ≤ M * (C - O) →
      ∃ p, (chunkSpans t.length C O M).getLast? = some p ∧ p.2 = t.length := by
    intro hL hcap
    exact chunkSpansAux_last t.length C O hO M 0 hL (by omega)
  have hhd : 0 < t.length →
      (chunkSpans t.length C O M).head? = some (0, min C t.length) := by
    intro hL
    rcases M with _ | m
    · omega
    · rw [chunkSpans, chunkSpansAux_head t.length C O m 0 hL]
      simp
  refine ⟨chunkText_eq_spans t C O M, hhd,
    chunkSpansAux_adjacent_clamp t.length C O M 0,
    fun hOL => chunkSpansAux_adjacent t.length C O hO hOL M 0,
    chunkSpansAux_bounds t.length C O hC M 0, hlast, ?_⟩
  intro hcap n hn
  have hL : 0 < t.length := by omega
  obtain ⟨p0, hp0, hp02⟩ := hlast hL hcap
  refine cover_of_adjacentClampChk O (chunkSpans t.length C O M) n
    (chunkSpansAux_adjacent_clamp t.length C O M 0) ?_ ?_ ?_
  · intro a rest he
    have h2 : (chunkSpans t.length C O M).head? = some a := by rw [he]; rfl
    rw [hhd hL] at h2
    have ha : a = (0, min C t.length) := by injection h2 with h3; exact h3.symm
    rw [ha]
    exact Nat.zero_le n
  · intro p hp
    rw [hp0] at hp
    have h4 : p = p0 := by injection hp with h5; exact h5.symm
    rw [h4, hp02]
    exact hn
  · intro he
    have h6 := hhd hL
    rw [he] at h6
    simp at h6

/-- C2 witness: the amended coverage theorem instantiated on the 8-character
text "abcdefgh" with `chunkSize = 3`, `overlap = 1`, `maxChunks = 10`. -/
theorem chunk_spans_coverage_witness :
    chunkText ("abcdefgh".toList) 3 1 10 =
      (chunkSpans ("abcdefgh".toList).length 3 1 10).map
        (fun p => jsSlice ("abcdefgh".toList) p.1 p.2) ∧
    (0 < ("abcdefgh".toList).length →
      (chunkSpans ("abcdefgh".toList).length 3 1 10).head? =
        some (0, min 3 ("abcdefgh".toList).length)) ∧
    adjacentClampChk 1 (chunkSpans ("abcdefgh".toList).length 3 1 10) = true ∧
    (1 ≤ ("abcdefgh".toList).length →
      adjacentChk 1 (chunkSpans ("abcdefgh".toList).length 3 1 10) = true) ∧
    (∀ p ∈ chunkSpans ("abcdefgh".toList).length 3 1 10,
      p.1 < p.2 ∧ p.2 ≤ ("abcdefgh".toList).length) ∧
    (0 < ("abcdefgh".toList).length → ("abcdefgh".toList).length ≤ 10 * (3 - 1) →
      ∃ p, (chunkSpans ("abcdefgh".toList).length 3 1 10).getLast? = some p ∧
        p.2 = ("abcdefgh".toList).length) ∧
    (("abcdefgh".toList).length ≤ 10 * (3 - 1) →
      ∀ n, n < ("abcdefgh".toList).length →
        ∃ p, p ∈ chunkSpans ("abcdefgh".toList).length 3 1 10 ∧ p.1 ≤ n ∧ n < p.2) :=
  chunk_spans_coverage ("abcdefgh".toList) 3 1 10 (by decide) (by decide) (by decide)

/-- An error thrown by the generation client: `err?.status` and
`err?.response?.status` as optional HTTP status codes. -/
structure GenError where
  status : Option Nat
  responseStatus : Option Nat
deriving DecidableEq

/-- `err?.status || err?.response?.status` from `generateWithRetries`: the
first field wins unless it is absent (or `0`, which is falsy in JS). -/
def errStatus (e : GenError) : Option Nat :=
  match e.status with
  | some s => if s = 0 then e.responseStatus else some s
  | none => e.responseStatus

/-- `status === 429 || status === 500 || status === 502 || status === 503 ||
status === 504` from `generateWithRetries`. -/
def retriableStatus (st : Option Nat) : Bool :=
  st == some 429 || st == some 500 || st == some 502 || st == some 503 || st == some 504

/-- The delay schedule `delays = [400, 800, 1600, 3200]` (milliseconds). -/
def retryDelays : List Nat := [400, 800, 1600, 3200]

/-- Outcome of one remote `model.generateContent` invocation. -/
inductive GenOutcome where
  | success : Str → GenOutcome
  | failure : GenError → GenOutcome
deriving DecidableEq

/-- `some e` when the invocation failed with `e`. -/
def failureOf : GenOutcome → Option GenError
  | .success _ => none
  | .failure e => some e

/-- Trace of the inner attempt loop of `generateWithRetries` for one model:
how many calls were made, the waits slept after retriable failures, the
returned text (if any) and the last error assigned to `lastErr`. -/
structure ModelRun where
  numCalls : Nat
  waits : List Nat
  result : Option Str
  lastErr : Option GenError
deriving DecidableEq

/-- The inner loop `for (attempt = 0; attempt < maxAttempts; attempt++)` of
`generateWithRetries`.  `oracle n` is the outcome of the `n`-th remote
invocation overall, `g` the index of the next invocation, `a` the current
attempt number and the last argument the attempts remaining.  On success the
loop returns immediately; on a retriable failure it sleeps
`delays[Math.min(attempt, delays.length - 1)]` and retries; on a
non-retriable failure it breaks out of the attempt loop. -/
def runAttempts (oracle : Nat → GenOutcome) (g a : Nat) : Nat → ModelRun
  | 0 => ⟨0, [], none, none⟩
  | r + 1 =>
    match oracle g with
    | .success t => ⟨1, [], some t, none⟩
    | .failure e =>
      if retriableStatus (errStatus e) then
        let w := retryDelays.getD (min a (retryDelays.length - 1)) 0
        let rest := runAttempts oracle (g + 1) (a + 1) r
        ⟨rest.numCalls + 1, w :: rest.waits, rest.result,
          match rest.lastErr with
          | some e2 => some e2
          | none => some e⟩
      else ⟨1, [], none, some e⟩

/-- Trace of a whole `generateWithRetries(genAI, primaryModel, prompt,
maxAttempts)` call: the models tried in order with their attempt-loop traces,
and the overall outcome (`Except.error` models `throw lastErr`; the payload
is `none` when `lastErr` was never assigned). -/
structure GenTrace where
  runs : List (Str × ModelRun)
  result : Except (Option GenError) Str

/-- `generateWithRetries` from `server.js`: try the primary model, then the
fallback model (`modelsToTry = [primaryModel, GEMINI_FALLBACK_MODEL]`), with
up to `maxAttempts` attempts each, and throw the last observed error when
both are exhausted. -/
def generateWithRetries (oracle : Nat → GenOutcome) (primaryModel fallbackModel : Str)
    (maxAttempts : Nat) : GenTrace :=
  let run1 := runAttempts oracle 0 0 maxAttempts
  match run1.result with
  | some t => ⟨[(primaryModel, run1)], .ok t⟩
  | none =>
    let run2 := runAttempts oracle run1.numCalls 0 maxAttempts
    match run2.result with
    | some t => ⟨[(primaryModel, run1), (fallbackModel, run2)], .ok t⟩
    | none =>
      ⟨[(primaryModel, run1), (fallbackModel, run2)],
        .error (match run2.lastErr with
                | some e2 => some e2
                | none => run1.lastErr)⟩

/-- Every invocation of the oracle fails with a retriable status. -/
def AllRetriable (oracle : Nat → GenOutcome) : Prop :=
  ∀ n, ∃ e, oracle n = .failure e ∧ retriableStatus (errStatus e) = true

/-- The wait schedule of a full attempt loop that failed retriably `m` times
starting at attempt number `a`. -/
def waitsFrom (a m : Nat) : List Nat :=
  (List.range m).map (fun k => retryDelays.getD (min (a + k) (retryDelays.length - 1)) 0)

theorem waitsFrom_succ (a r : Nat) :
    waitsFrom a (r + 1) =
      retryDelays.getD (min a (retryDelays.length - 1)) 0 :: waitsFrom (a + 1) r := by
  simp only [waitsFrom, List.range_succ_eq_map, List.map_cons, List.map_map]
  refine congrArg₂ _ (by simp) ?_
  refine List.map_congr_left ?_
  intro k _
  simp only [Function.comp]
  congr 1
  omega

theorem runAttempts_all_retriable (oracle : Nat → GenOutcome) (h : AllRetriable oracle) :
    ∀ r g a, runAttempts oracle g a r =
      ⟨r, waitsFrom a r, none,
        if r = 0 then none else failureOf (oracle (g + r - 1))⟩ := by
  intro r
  induction r with
  | zero => intro g a; simp [runAttempts, waitsFrom]
  | succ r ih =>
    intro g a
    obtain ⟨e, he, hr⟩ := h g
    simp only [runAttempts, he, hr, if_true, ih (g + 1) (a + 1)]
    simp only [ModelRun.mk.injEq]
    refine ⟨trivial, (waitsFrom_succ a r).symm, trivial, ?_⟩
    rcases r with _ | r
    · simp [he, failureOf]
    · have hne : ¬ (r + 1 = 0) := by omega
      simp only [if_neg hne, if_neg (by omega : ¬ (r + 1 + 1 = 0))]
      obtain ⟨e2, he2, _⟩ := h (g + 1 + (r + 1) - 1)
      have harith : g + 1 + (r + 1) - 1 = g + (r + 1 + 1) - 1 := by omega
      rw [he2, ← harith, he2]
      rfl

/-- C3: when every generation attempt fails with a retriable status
(429/500/502/503/504), `generateWithRetries` makes exactly `maxAttempts`
calls on the primary model and exactly `maxAttempts` calls on the fallback
model — exactly these 2 models, in this fixed order — sleeping
`delays[min(attempt, delays.length - 1)]` of the schedule
`[400, 800, 1600, 3200]` after each retriable failure, and finally throws
the last observed error (the error of the final fallback attempt). -/
theorem generateWithRetries_all_retriable (oracle : Nat → GenOutcome)
    (p f : Str) (M : Nat) (hM : 0 < M) (h : AllRetriable oracle) :
    generateWithRetries oracle p f M =
      ⟨[(p, ⟨M, waitsFrom 0 M, none, failureOf (oracle (M - 1))⟩),
        (f, ⟨M, waitsFrom 0 M, none, failureOf (oracle (M + M - 1))⟩)],
       Except.error (failureOf (oracle (M + M - 1)))⟩ := by
  have hM0 : ¬ (M = 0) := by omega
  have h1 := runAttempts_all_retriable oracle h M 0 0
  have h2 := runAttempts_all_retriable oracle h M M 0
  rw [if_neg hM0] at h1 h2
  rw [Nat.zero_add] at h1
  obtain ⟨e2, he2, _⟩ := h (M + M - 1)
  simp only [generateWithRetries, h1, h2, he2, failureOf]

/-- C3 witness: an oracle that always fails with HTTP 503 and the default
`maxAttempts = 4`, on the default primary and fallback model names. -/
theorem generateWithRetries_all_retriable_witness :
    generateWithRetries (fun _ => .failure ⟨some 503, none⟩) ("gemini-1.5-flash".toList)
        ("gemini-1.5-flash-8b".toList) 4 =
      ⟨[(("gemini-1.5-flash".toList), ⟨4, [400, 800, 1600, 3200], none, some ⟨some 503, none⟩⟩),
        (("gemini-1.5-flash-8b".toList), ⟨4, [400, 800, 1600, 3200], none, some ⟨some 503, none⟩⟩)],
       Except.error (some ⟨some 503, none⟩)⟩ := by
  have h := generateWithRetries_all_retriable (fun _ => .failure ⟨some 503, none⟩)
    ("gemini-1.5-flash".toList) ("gemini-1.5-flash-8b".toList) 4 (by decide)
    (fun n => ⟨⟨some 503, none⟩, rfl, by decide⟩)
  exact h

/-- C4: a non-retriable failure on the first primary attempt means exactly one
call on the primary model, no wait, then the fallback model starting with the
very next remote invocation; and a success on any attempt returns that text
immediately, with no further attempts for the current model and, when the
success is on the primary model, no fallback at all. -/
theorem generateWithRetries_nonretriable_fallback (oracle : Nat → GenOutcome)
    (p f : Str) (M : Nat) (hM : 0 < M) :
    (∀ e, oracle 0 = .failure e → retriableStatus (errStatus e) = false →
      (generateWithRetries oracle p f M).runs =
        [(p, ⟨1, [], none, some e⟩), (f, runAttempts oracle 1 0 M)]) ∧
    (∀ g a r t, oracle g = .success t →
      runAttempts oracle g a (r + 1) = ⟨1, [], some t, none⟩) ∧
    (∀ t, oracle 0 = .success t →
      generateWithRetries oracle p f M = ⟨[(p, ⟨1, [], some t, none⟩)], .ok t⟩) := by
  obtain ⟨m, rfl⟩ : ∃ m, M = m + 1 := ⟨M - 1, by omega⟩
  refine ⟨?_, ?_, ?_⟩
  · intro e he hnr
    have hrun1 : runAttempts oracle 0 0 (m + 1) = ⟨1, [], none, some e⟩ := by
      simp [runAttempts, he, hnr]
    rcases hr2 : (runAttempts oracle 1 0 (m + 1)).result with _ | t2
    · simp [generateWithRetries, hrun1, hr2]
    · simp [generateWithRetries, hrun1, hr2]
  · intro g a r t hs
    simp [runAttempts, hs]
  · intro t hs
    have hrun1 : runAttempts oracle 0 0 (m + 1) = ⟨1, [], some t, none⟩ := by
      simp [runAttempts, hs]
    simp [generateWithRetries, hrun1]

/-- Oracle for the C4 witness: the first remote invocation fails with a
non-retriable HTTP 400, every later one succeeds. -/
def genOracleW : Nat → GenOutcome :=
  fun n => if n = 0 then .failure ⟨some 400, none⟩ else .success ("ok".toList)

/-- C4 witness: with `genOracleW` the primary model is attempted exactly once
with no wait, and the fallback model's first attempt succeeds immediately. -/
theorem generateWithRetries_nonretriable_fallback_witness :
    (generateWithRetries genOracleW (['p']) (['f']) 4).runs =
      [((['p']), ⟨1, [], none, some ⟨some 400, none⟩⟩), ((['f']), runAttempts genOracleW 1 0 4)] ∧
    runAttempts genOracleW 1 0 4 = ⟨1, [], some ("ok".toList), none⟩ := by
  have h := generateWithRetries_nonretriable_fallback genOracleW (['p']) (['f']) 4 (by decide)
  exact ⟨h.1 ⟨some 400, none⟩ (by decide) (by decide), h.2.1 1 0 3 ("ok".toList) (by decide)⟩

/-- Decimal digit characters of `n`, least significant first; any
`fuel ≥ n` gives the full expansion (structural recursion keeps this
kernel-computable). -/
def digitsRevAux : Nat → Nat → Str
  | 0, _ => []
  | f + 1, n => if n = 0 then [] else Nat.digitChar (n % 10) :: digitsRevAux f (n / 10)

/-- JS `String(n)` for a natural number: its decimal digit characters,
most significant first. -/
def digitsOf (n : Nat) : Str :=
  if n = 0 then ['0'] else (digitsRevAux n n).reverse

theorem digitsRevAux_eq :
    ∀ fuel n, n ≤ fuel → digitsRevAux fuel n = (Nat.digits 10 n).map Nat.digitChar := by
  intro fuel
  induction fuel with
  | zero =>
    intro n hn
    have h0 : n = 0 := by omega
    subst h0
    simp [digitsRevAux]
  | succ f ih =>
    intro n hn
    by_cases h0 : n = 0
    · subst h0; simp [digitsRevAux]
    · simp only [digitsRevAux, if_neg h0]
      rw [Nat.digits_def' (by norm_num : (1 : Nat) < 10) (by omega : 0 < n)]
      simp only [List.map_cons]
      have hdiv : n / 10 ≤ f := by
        have := Nat.div_lt_self (show 0 < n by omega) (show 1 < 10 by norm_num)
        omega
      rw [ih (n / 10) hdiv]

theorem digitsOf_eq (n : Nat) :
    digitsOf n = if n = 0 then ['0'] else ((Nat.digits 10 n).map Nat.digitChar).reverse := by
  by_cases h : n = 0
  · simp [digitsOf, h]
  · simp only [digitsOf, if_neg h, digitsRevAux_eq n n le_rfl]

/-- The string hashed for an IndexPoint id in `upsert`:
`meta.url + '#' + (i + j)`. -/
def pointKey (url : Str) (idx : Nat) : Str := url ++ '#' :: digitsOf idx

theorem digitChar_inj_lt10 :
    ∀ a b : Fin 10, Nat.digitChar a.val = Nat.digitChar b.val → a = b := by
  decide

theorem digitChar_ne_hash : ∀ d : Fin 10, Nat.digitChar d.val ≠ '#' := by
  decide

theorem map_digitChar_inj :
    ∀ (l1 l2 : List Nat), (∀ x ∈ l1, x < 10) → (∀ x ∈ l2, x < 10) →
      l1.map Nat.digitChar = l2.map Nat.digitChar → l1 = l2 := by
  intro l1
  induction l1 with
  | nil => intro l2 _ _ he; cases l2 <;> simp_all
  | cons a t ih =>
    intro l2 h1 h2 he
    cases l2 with
    | nil => simp at he
    | cons b t2 =>
      simp only [List.map_cons, List.cons.injEq] at he
      have ha : a < 10 := h1 a (List.mem_cons_self ..)
      have hb : b < 10 := h2 b (List.mem_cons_self ..)
      have hab : a = b :=
        congrArg Fin.val (digitChar_inj_lt10 ⟨a, ha⟩ ⟨b, hb⟩ he.1)
      rw [hab, ih t2 (fun x hx => h1 x (List.mem_cons_of_mem _ hx))
        (fun x hx => h2 x (List.mem_cons_of_mem _ hx)) he.2]

theorem digitsOf_ne_hash (n : Nat) : ∀ c ∈ digitsOf n, c ≠ '#' := by
  intro c hc
  by_cases h : n = 0
  · subst h
    simp [digitsOf] at hc
    subst hc
    decide
  · rw [digitsOf_eq] at hc
    simp only [if_neg h, List.mem_reverse, List.mem_map] at hc
    obtain ⟨d, hd, rfl⟩ := hc
    exact digitChar_ne_hash ⟨d, Nat.digits_lt_base (by norm_num) hd⟩

theorem digitsOf_inj : ∀ m n : Nat, digitsOf m = digitsOf n → m = n := by
  have key : ∀ k : Nat, ¬ (k = 0) → ¬ (((Nat.digits 10 k).map Nat.digitChar).reverse = ['0']) := by
    intro k hk hrev
    have hmap : (Nat.digits 10 k).map Nat.digitChar = ['0'] := by
      have := congrArg List.reverse hrev
      rwa [List.reverse_reverse] at this
    rcases hd : Nat.digits 10 k with _ | ⟨d, t⟩
    · rw [hd] at hmap; simp at hmap
    · rw [hd] at hmap
      rcases t with _ | ⟨d2, t2⟩
      · simp only [List.map_cons, List.map_nil, List.cons.injEq] at hmap
        have hdlt : d < 10 := Nat.digits_lt_base (by norm_num) (hd ▸ List.mem_cons_self ..)
        have hd0 : d = 0 := by
          have : (⟨d, hdlt⟩ : Fin 10) = ⟨0, by norm_num⟩ :=
            digitChar_inj_lt10 ⟨d, hdlt⟩ ⟨0, by norm_num⟩ (by simpa using hmap.1)
          exact congrArg Fin.val this
        have := Nat.ofDigits_digits 10 k
        rw [hd, hd0] at this
        simp [Nat.ofDigits] at this
        exact hk this.symm
      · simp at hmap
  intro m n he
  by_cases hm : m = 0 <;> by_cases hn : n = 0
  · rw [hm, hn]
  · subst hm
    rw [digitsOf_eq, digitsOf_eq] at he
    simp only [if_pos rfl, if_neg hn] at he
    exact absurd he.symm (key n hn)
  · subst hn
    rw [digitsOf_eq, digitsOf_eq] at he
    simp only [if_neg hm, if_pos rfl] at he
    exact absurd he (key m hm)
  · rw [digitsOf_eq, digitsOf_eq] at he
    simp only [if_neg hm, if_neg hn] at he
    have hmap := List.reverse_injective he
    have hdig := map_digitChar_inj (Nat.digits 10 m) (Nat.digits 10 n)
      (fun x hx => Nat.digits_lt_base (by norm_num) hx)
      (fun x hx => Nat.digits_lt_base (by norm_num) hx) hmap
    have h1 := Nat.ofDigits_digits 10 m
    have h2 := Nat.ofDigits_digits 10 n
    rw [← h1, ← h2, hdig]

theorem append_first_marker :
    ∀ (p1 s1 p2 s2 : Str), (∀ c ∈ p1, c ≠ '#') → (∀ c ∈ p2, c ≠ '#') →
      p1 ++ '#' :: s1 = p2 ++ '#' :: s2 → p1 = p2 ∧ s1 = s2 := by
  intro p1
  induction p1 with
  | nil =>
    intro s1 p2 s2 _ h2 he
    cases p2 with
    | nil => simp_all
    | cons c t =>
      simp only [List.nil_append, List.cons_append, List.cons.injEq] at he
      exact absurd he.1.symm (h2 c (List.mem_cons_self ..))
  | cons a t ih =>
    intro s1 p2 s2 h1 h2 he
    cases p2 with
    | nil =>
      simp only [List.cons_append, List.nil_append, List.cons.injEq] at he
      exact absurd he.1 (h1 a (List.mem_cons_self ..))
    | cons b t2 =>
      simp only [List.cons_append, List.cons.injEq] at he
      obtain ⟨h3, h4⟩ := ih s1 t2 s2 (fun c hc => h1 c (List.mem_cons_of_mem _ hc))
        (fun c hc => h2 c (List.mem_cons_of_mem _ hc)) he.2
      exact ⟨by rw [he.1, h3], h4⟩

theorem pointKey_inj (u1 u2 : Str) (k1 k2 : Nat) :
    pointKey u1 k1 = pointKey u2 k2 → u1 = u2 ∧ k1 = k2 := by
  intro he
  have hrev := congrArg List.reverse he
  simp only [pointKey, List.reverse_append, List.reverse_cons] at hrev
  rw [List.append_assoc, List.append_assoc, List.singleton_append, List.singleton_append] at hrev
  obtain ⟨hd, hu⟩ := append_first_marker (digitsOf k1).reverse u1.reverse
    (digitsOf k2).reverse u2.reverse
    (fun c hc => digitsOf_ne_hash k1 c (List.mem_reverse.mp hc))
    (fun c hc => digitsOf_ne_hash k2 c (List.mem_reverse.mp hc)) hrev
  refine ⟨List.reverse_injective hu, digitsOf_inj k1 k2 (List.reverse_injective hd)⟩

/-- Batch upserts of `upsert(chunks, meta)` from the ingest script, reduced to
the ids it generates: for each batch of `BATCH = 32` chunks starting at
offset `i`, the points' ids are `md5(meta.url + '#' + (i + j))` for `j`
ranging over the batch slice (one point per embedding vector; the embedding
service returns one vector per input of the batch, per its contract). -/
def upsertIdsAux (md5 : Str → Str) (url : Str) (chunks : List Str) (i : Nat) : List Str :=
  if _h : i < chunks.length then
    (List.range ((chunks.drop i).take 32).length).map (fun j => md5 (pointKey url (i + j))) ++
      upsertIdsAux md5 url chunks (i + 32)
  else []
termination_by chunks.length - i
decreasing_by omega

/-- The sequence of ids `upsert(chunks, meta)` writes, in order. -/
def upsertIds (md5 : Str → Str) (url : Str) (chunks : List Str) : List Str :=
  upsertIdsAux md5 url chunks 0

theorem upsertIdsAux_eq (md5 : Str → Str) (url : Str) (chunks : List Str) :
    ∀ n i, chunks.length - i ≤ n →
      upsertIdsAux md5 url chunks i =
        (List.range (chunks.length - i)).map (fun k => md5 (pointKey url (i + k))) := by
  intro n
  induction n with
  | zero =>
    intro i hle
    rw [upsertIdsAux]
    rw [dif_neg (by omega)]
    have : chunks.length - i = 0 := by omega
    rw [this]
    rfl
  | succ n ih =>
    intro i hle
    rw [upsertIdsAux]
    by_cases h : i < chunks.length
    · rw [dif_pos h]
      have hslice : ((chunks.drop i).take 32).length = min 32 (chunks.length - i) := by
        simp
      have hrec := ih (i + 32) (by omega)
      rw [hslice, hrec]
      by_cases h32 : chunks.length - i ≤ 32
      · have h1 : min 32 (chunks.length - i) = chunks.length - i := by omega
        have h2 : chunks.length - (i + 32) = 0 := by omega
        rw [h1, h2]
        simp
      · have h1 : min 32 (chunks.length - i) = 32 := by omega
        have h2 : chunks.length - i = 32 + (chunks.length - (i + 32)) := by omega
        rw [h1, h2, List.range_add, List.map_append, List.map_map]
        refine congrArg₂ _ rfl ?_
        refine List.map_congr_left ?_
        intro k _
        simp only [Function.comp]
        have harg : i + 32 + k = i + (32 + k) := by omega
        rw [harg]
    · rw [dif_neg h]
      have : chunks.length - i = 0 := by omega
      rw [this]
      rfl

/-- C5: the id sequence produced by `upsert` is exactly the hash of
`url + '#' + index` for the chunk indices `0, 1, …` in order — it depends
only on `(url, index)`, so re-ingesting a document with the same chunking
(hence the same number of chunks) reproduces the identical id sequence
(idempotent overwrite), and, with the hash treated as collision-free
(injective), points of different documents or different indices always get
distinct ids; the unhashed keys themselves are pairwise distinct because the
decimal index after the final '#' determines the split. -/
theorem upsertIds_content_addressed (md5 : Str → Str) (hinj : Function.Injective md5)
    (url url2 : Str) (chunks chunks2 : List Str) :
    upsertIds md5 url chunks = (List.range chunks.length).map (fun k => md5 (pointKey url k)) ∧
    (chunks.length = chunks2.length → upsertIds md5 url chunks = upsertIds md5 url chunks2) ∧
    (∀ k1 k2, ¬ (url = url2 ∧ k1 = k2) →
      md5 (pointKey url k1) ≠ md5 (pointKey url2 k2)) := by
  have heq : ∀ (u : Str) (cs : List Str),
      upsertIds md5 u cs = (List.range cs.length).map (fun k => md5 (pointKey u k)) := by
    intro u cs
    have := upsertIdsAux_eq md5 u cs cs.length 0 (by omega)
    rw [upsertIds, this]
    simp
  refine ⟨heq url chunks, ?_, ?_⟩
  · intro hlen
    rw [heq url chunks, heq url chunks2, hlen]
  · intro k1 k2 hne he
    exact hne (pointKey_inj url url2 k1 k2 (hinj he))

/-- C5 witness: the identity function as a (vacuously injective) stand-in
hash, a two-chunk document at url "u" and a second url "v". -/
theorem upsertIds_content_addressed_witness :
    upsertIds id (['u']) [("ab".toList), ("cd".toList)] =
      (List.range ([("ab".toList), ("cd".toList)] : List Str).length).map
        (fun k => id (pointKey (['u']) k)) ∧
    (([("ab".toList), ("cd".toList)] : List Str).length =
        ([("xy".toList), ("zw".toList)] : List Str).length →
      upsertIds id (['u']) [("ab".toList), ("cd".toList)] =
        upsertIds id (['u']) [("xy".toList), ("zw".toList)]) ∧
    (∀ k1 k2, ¬ ((['u'] : Str) = (['v'] : Str) ∧ k1 = k2) →
      id (pointKey (['u']) k1) ≠ id (pointKey (['v']) k2)) :=
  upsertIds_content_addressed id (fun _ _ h => h) (['u']) (['v'])
    [("ab".toList), ("cd".toList)] [("xy".toList), ("zw".toList)]

/-- One element of the embedding response's `data` array; `V` is the type of
embedding vectors (their numeric content is irrelevant here). -/
structure EmbedItem (V : Type) where
  embedding : V
deriving DecidableEq

/-- The JSON body of an embedding response; `data = none` models a body with
no `data` array (`resp.data.data` undefined). -/
structure EmbedBody (V : Type) where
  data : Option (List (EmbedItem V))
deriving DecidableEq

/-- An HTTP response as axios sees it: status code plus parsed body. -/
structure EmbedHttpResponse (V : Type) where
  status : Nat
  body : EmbedBody V
deriving DecidableEq

/-- Outcome of the POST to the embedding service: either an HTTP response or
a transport failure with no response. -/
inductive EmbedOutcome (V : Type) where
  | response : EmbedHttpResponse V → EmbedOutcome V
  | networkError : EmbedOutcome V
deriving DecidableEq

/-- How `embedTexts` (server) / `embedBatch` (ingest) can throw: axios
rejects any non-2xx status (its default `validateStatus`), the request can
fail in transport, and a body without a `data` array makes
`resp.data.data.map` throw a TypeError. -/
inductive EmbedError where
  | httpStatus : Nat → EmbedError
  | network : EmbedError
  | typeError : EmbedError
deriving DecidableEq

/-- Result of one `embedTexts` call plus the number of remote calls it made. -/
structure EmbedResult (V : Type) where
  result : Except EmbedError (List V)
  numCalls : Nat

/-- `embedTexts(texts)` from `server.js` (identical logic to `embedBatch` in
the ingest script): a single `axios.post` of `{ input: texts, model }`, then
`resp.data.data.map(d => d.embedding)` — with no length check against
`texts` and no retry. -/
def embedTexts {V : Type} (post : List Str → EmbedOutcome V) (texts : List Str) :
    EmbedResult V :=
  match post texts with
  | .networkError => ⟨.error .network, 1⟩
  | .response resp =>
    if 200 ≤ resp.status ∧ resp.status < 300 then
      match resp.body.data with
      | none => ⟨.error .typeError, 1⟩
      | some items => ⟨.ok (items.map (fun d => d.embedding)), 1⟩
    else ⟨.error (.httpStatus resp.status), 1⟩

/-- C6 counterexample: a 2xx response whose `data` array is empty while the
input has one text is returned as `ok []` — the claim's required failure on a
result array shorter than the input does not happen (there is no length
check). -/
theorem embedTexts_short_result_cex :
    (embedTexts (V := Nat) (fun _ => .response ⟨200, ⟨some []⟩⟩) [("a".toList)]).result =
      .ok [] ∧
    ([] : List Nat).length < [("a".toList)].length := by
  exact ⟨rfl, by decide⟩

/-- C6 (amended): `embedTexts` makes exactly one remote call (no internal
retry), fails on transport errors, on any non-2xx status and on a missing
result array, and otherwise returns exactly one vector per element of the
service's result array, order-preserving; a result array shorter than the
input is NOT detected — the shorter vector list is returned as-is (the
original claim's failure on short arrays is dropped, as forced by the
counterexample). -/
theorem embedTexts_amended_spec {V : Type} (post : List Str → EmbedOutcome V)
    (texts : List Str) :
    (embedTexts post texts).numCalls = 1 ∧
    (post texts = .networkError → (embedTexts post texts).result = .error .network) ∧
    (∀ resp, post texts = .response resp → ¬ (200 ≤ resp.status ∧ resp.status < 300) →
      (embedTexts post texts).result = .error (.httpStatus resp.status)) ∧
    (∀ resp, post texts = .response resp → (200 ≤ resp.status ∧ resp.status < 300) →
      resp.body.data = none → (embedTexts post texts).result = .error .typeError) ∧
    (∀ resp items, post texts = .response resp → (200 ≤ resp.status ∧ resp.status < 300) →
      resp.body.data = some items →
      (embedTexts post texts).result = .ok (items.map (fun d => d.embedding)) ∧
      ∀ rlist, (embedTexts post texts).result = .ok rlist → rlist.length = items.length) := by
  refine ⟨?_, ?_, ?_, ?_, ?_⟩
  · rcases hp : post texts with resp | _
    · simp only [embedTexts, hp]
      by_cases hs : 200 ≤ resp.status ∧ resp.status < 300
      · rw [if_pos hs]
        rcases resp.body.data with _ | items <;> rfl
      · rw [if_neg hs]
    · simp [embedTexts, hp]
  · intro hp
    simp [embedTexts, hp]
  · intro resp hp hs
    simp only [embedTexts, hp]
    rw [if_neg hs]
  · intro resp hp hs hd
    simp only [embedTexts, hp]
    rw [if_pos hs, hd]
  · intro resp items hp hs hd
    simp only [embedTexts, hp]
    rw [if_pos hs, hd]
    exact ⟨rfl, fun rlist hr => by
      injection hr with h
      rw [← h, List.length_map]⟩

/-- C6 witness: a well-formed 2xx response with two numeric "vectors" for a
two-text input, evaluated through the amended specification. -/
theorem embedTexts_amended_spec_witness :
    (embedTexts (fun _ => .response ⟨200, ⟨some [⟨5⟩, ⟨7⟩]⟩⟩) [("x".toList), ("y".toList)]).result =
      .ok [5, 7] ∧
    (embedTexts (fun _ => .response ⟨200, ⟨some [⟨5⟩, ⟨7⟩]⟩⟩)
      [("x".toList), ("y".toList)]).numCalls = 1 := by
  have h := embedTexts_amended_spec (V := Nat) (fun _ => .response ⟨200, ⟨some [⟨5⟩, ⟨7⟩]⟩⟩)
    [("x".toList), ("y".toList)]
  exact ⟨(h.2.2.2.2 ⟨200, ⟨some [⟨5⟩, ⟨7⟩]⟩⟩ [⟨5⟩, ⟨7⟩] rfl (by decide) rfl).1, h.1⟩

/-- A retrieval hit as mapped by `retrieve` in `server.js`:
`{ score, text, url, title }`.  `S` is the score type; the prompt builder
only consumes scores through their `toFixed(3)` rendering, supplied
separately. -/
structure RetrievalResult (S : Type) where
  score : S
  text : Str
  url : Str
  title : Str
deriving DecidableEq

/-- JS `Array.prototype.map((x, i) => f i x)` starting at index `i0`. -/
def mapWithIdx {α β : Type} (f : Nat → α → β) : Nat → List α → List β
  | _, [] => []
  | i, a :: t => f i a :: mapWithIdx f (i + 1) t

/-- JS `Array.prototype.join(sep)`. -/
def joinSep (sep : Str) : List Str → Str
  | [] => []
  | [x] => x
  | x :: y :: t => x ++ sep ++ joinSep sep (y :: t)

/-- Head of the prompt template of `buildRagPrompt`, up to `${query}`. -/
def promptHead : Str :=
  ("You are a helpful assistant that answers questions using ONLY the provided news context.\nCite sources inline with [S1], [S2], etc., where the number corresponds to the source order. If you are unsure, say so briefly.\n\nQuestion: ").toList

/-- Template part of `buildRagPrompt` between `${query}` and `${contextText}`. -/
def promptMid : Str := ("\n\nContext:\n").toList

/-- Tail of the prompt template of `buildRagPrompt`, after `${contextText}`. -/
def promptTail : Str := ("\n\nAnswer:").toList

/-- The separator of `contexts.map(...).join('\n\n---\n\n')`. -/
def blockSep : Str := ("\n\n---\n\n").toList

/-- One context block of `buildRagPrompt`:
`Source ${i+1} (${c.score.toFixed(3)}): ${c.title}\n${c.text}\nURL: ${c.url}`,
where `label` is the 1-based source number and `fixed3` renders
`score.toFixed(3)`. -/
def sourceBlock {S : Type} (fixed3 : S → Str) (label : Nat) (c : RetrievalResult S) : Str :=
  ("Source ").toList ++ digitsOf label ++ (" (").toList ++ fixed3 c.score ++
    ("): ").toList ++ c.title ++ ('\n' :: c.text) ++ ("\nURL: ").toList ++ c.url

/-- `buildRagPrompt(query, contexts)` from `server.js`. -/
def buildRagPrompt {S : Type} (fixed3 : S → Str) (query : Str)
    (contexts : List (RetrievalResult S)) : Str :=
  promptHead ++ query ++ promptMid ++
    joinSep blockSep (mapWithIdx (fun i c => sourceBlock fixed3 (i + 1) c) 0 contexts) ++
    promptTail

theorem mapWithIdx_length {α β : Type} (f : Nat → α → β) :
    ∀ (l : List α) (i : Nat), (mapWithIdx f i l).length = l.length := by
  intro l
  induction l with
  | nil => intro i; rfl
  | cons a t ih => intro i; simp [mapWithIdx, ih]

theorem mapWithIdx_get_mem {α β : Type} (f : Nat → α → β) :
    ∀ (l : List α) (i j : Nat) (h : j < l.length),
      f (i + j) (l.get ⟨j, h⟩) ∈ mapWithIdx f i l := by
  intro l
  induction l with
  | nil => intro i j h; simp at h
  | cons a t ih =>
    intro i j h
    cases j with
    | zero => simp [mapWithIdx]
    | succ j =>
      have := ih (i + 1) j (by simpa using h)
      have harith : i + (j + 1) = (i + 1) + j := by omega
      rw [harith]
      exact List.mem_cons_of_mem _ this

theorem joinSep_split (sep : Str) :
    ∀ (l : List Str) (x : Str), x ∈ l →
      ∃ pre post, joinSep sep l = pre ++ x ++ post := by
  intro l
  induction l with
  | nil => intro x hx; simp at hx
  | cons a t ih =>
    intro x hx
    rcases t with _ | ⟨b, t2⟩
    · rcases List.mem_singleton.mp hx with rfl
      exact ⟨[], [], by simp [joinSep]⟩
    · rcases List.mem_cons.mp hx with rfl | hx2
      · exact ⟨[], sep ++ joinSep sep (b :: t2), by simp [joinSep]⟩
      · obtain ⟨pre, post, hpp⟩ := ih x hx2
        refine ⟨a ++ sep ++ pre, post, ?_⟩
        show a ++ sep ++ joinSep sep (b :: t2) = a ++ sep ++ pre ++ x ++ post
        rw [hpp]
        simp [List.append_assoc]

/-- Whether `pat` is an initial segment of `s` (plain Boolean scan). -/
def isPre : Str → Str → Bool
  | [], _ => true
  | _ :: _, [] => false
  | a :: as, b :: bs => (a == b) && isPre as bs

/-- Whether `pat` occurs contiguously anywhere in `s`. -/
def occursB (pat : Str) : Str → Bool
  | [] => isPre pat []
  | c :: rest => isPre pat (c :: rest) || occursB pat rest

/-- Whether some occurrence of `x` in `s` is followed (at or after its end)
by an occurrence of `y`. -/
def followedByB (x y : Str) : Str → Bool
  | [] => false
  | c :: rest =>
    (isPre x (c :: rest) && occursB y (List.drop x.length (c :: rest))) ||
      followedByB x y rest

/-- C9 counterexample: in the built prompt the grounding instruction
("...using ONLY the provided news context...", with the `[S1], [S2]` citation
directive) precedes the source blocks; on a concrete one-result input the
instruction phrase occurs in the prompt and the source block occurs in the
prompt, but no occurrence of the block is followed by the instruction phrase
— the claim's "blocks followed by an instruction" is false. -/
theorem buildRagPrompt_instruction_position_cex :
    occursB (("ONLY the provided news context").toList)
      (buildRagPrompt (fun _ : Unit => ("0.500").toList) (['q'])
        [⟨(), ("x".toList), ("u".toList), ("t".toList)⟩]) = true ∧
    occursB (("Source 1 (0.500): t\nx\nURL: u").toList)
      (buildRagPrompt (fun _ : Unit => ("0.500").toList) (['q'])
        [⟨(), ("x".toList), ("u".toList), ("t".toList)⟩]) = true ∧
    followedByB (("Source 1 (0.500): t\nx\nURL: u").toList)
      (("ONLY the provided news context").toList)
      (buildRagPrompt (fun _ : Unit => ("0.500").toList) (['q'])
        [⟨(), ("x".toList), ("u".toList), ("t".toList)⟩]) = false := by
  decide

/-- C9 (amended): `buildRagPrompt` is a pure function (deterministic by
construction), and decomposes as the fixed instruction head (answer only from
the provided news context, cite with the `[S1], [S2]` labels), the query, the
`Context:` marker, the source blocks joined by `\n\n---\n\n` — one block per
result, in input order, labeled `Source i+1` and carrying that result's
score, title, text and url, with no truncation and no deduplication — and
the closing `Answer:` tail; the instruction precedes the blocks rather than
following them, as forced by the counterexample. -/
theorem buildRagPrompt_structure {S : Type} (fixed3 : S → Str) (q : Str)
    (rs : List (RetrievalResult S)) :
    buildRagPrompt fixed3 q rs =
      promptHead ++ q ++ promptMid ++
        joinSep blockSep (mapWithIdx (fun i c => sourceBlock fixed3 (i + 1) c) 0 rs) ++
        promptTail ∧
    (mapWithIdx (fun i c => sourceBlock fixed3 (i + 1) c) 0 rs).length = rs.length ∧
    (∀ q2 rs2, q = q2 → rs = rs2 → buildRagPrompt fixed3 q rs = buildRagPrompt fixed3 q2 rs2) ∧
    (∀ i (h : i < rs.length), ∃ pre post,
      buildRagPrompt fixed3 q rs =
        pre ++ sourceBlock fixed3 (i + 1) (rs.get ⟨i, h⟩) ++ post) := by
  refine ⟨rfl, mapWithIdx_length _ rs 0, fun q2 rs2 hq hr => by rw [hq, hr], ?_⟩
  intro i h
  have hmem := mapWithIdx_get_mem (fun i c => sourceBlock fixed3 (i + 1) c) rs 0 i h
  rw [Nat.zero_add] at hmem
  obtain ⟨pre, post, hpp⟩ := joinSep_split blockSep _ _ hmem
  refine ⟨promptHead ++ q ++ promptMid ++ pre, post ++ promptTail, ?_⟩
  simp only [buildRagPrompt, hpp]
  simp [List.append_assoc]

/-- C9 witness: the structural theorem instantiated on a concrete one-result
list, extracting the block-count equation and the positioned first block. -/
theorem buildRagPrompt_structure_witness :
    (mapWithIdx (fun i c => sourceBlock (fun _ : Unit => ("0.500").toList) (i + 1) c) 0
      [⟨(), ("x".toList), ("u".toList), ("t".toList)⟩]).length =
      ([⟨(), ("x".toList), ("u".toList), ("t".toList)⟩] : List (RetrievalResult Unit)).length ∧
    (∃ pre post,
      buildRagPrompt (fun _ : Unit => ("0.500").toList) (['q'])
          [⟨(), ("x".toList), ("u".toList), ("t".toList)⟩] =
        pre ++ sourceBlock (fun _ : Unit => ("0.500").toList) (0 + 1)
          (([⟨(), ("x".toList), ("u".toList), ("t".toList)⟩] :
            List (RetrievalResult Unit)).get ⟨0, by decide⟩) ++ post) := by
  have h := buildRagPrompt_structure (fun _ : Unit => ("0.500").toList) (['q'])
    [⟨(), ("x".toList), ("u".toList), ("t".toList)⟩]
  exact ⟨h.2.1, h.2.2.2 0 (by decide)⟩

/-- One session-history entry as stored by `pushHistory`:
`{ role, content, ts: Date.now() }`. -/
structure HistEntry where
  role : Str
  content : Str
  ts : Nat
deriving DecidableEq

/-- One element of the chat response's `sources` array:
`{ id: "S<n>", title, url, score }`. -/
structure SourceRef (S : Type) where
  id : Str
  title : Str
  url : Str
  score : S
deriving DecidableEq

/-- The HTTP response of the chat handler: either the 400 validation error
`{ error: 'message is required' }` or a JSON body
`{ reply, sources, sessionId }` sent with the given status. -/
inductive ChatResponse (S : Type) where
  | badRequest : Nat → Str → ChatResponse S
  | json : Nat → Str → List (SourceRef S) → Str → ChatResponse S
deriving DecidableEq

/-- The external collaborators of one `/api/chat` request, as oracles:
the stored history, whether each `pushHistory` call succeeds, the outcome of
`retrieve(message, 5)`, the outcome of `generateWithRetries` on a given
prompt, and the `Date.now()` values of the two possible pushes. -/
structure ChatDeps (S : Type) where
  hist0 : List HistEntry
  pushUserOk : Bool
  retrieveR : Except Unit (List (RetrievalResult S))
  generateR : Str → Except Unit Str
  pushAssistantOk : Bool
  now1 : Nat
  now2 : Nat

/-- Result of one `/api/chat` request: the response sent, the stored history
afterwards, and trace flags recording whether retrieval was reached, whether
the generation service was invoked, and whether the `catch` block ran. -/
structure ChatRunResult (S : Type) where
  response : ChatResponse S
  hist : List HistEntry
  retrieveCalled : Bool
  genCalled : Bool
  caught : Bool

/-- The whitespace test of JS `String.prototype.trim` (ASCII subset; the
handler only checks whether anything non-whitespace remains). -/
def isJsWs (c : Char) : Bool :=
  c == ' ' || c == '\t' || c == '\n' || c == '\r' || c == '\x0b' || c == '\x0c'

/-- JS `s.trim()` on the character-list model. -/
def jsTrim (s : Str) : Str :=
  ((s.dropWhile isJsWs).reverse.dropWhile isJsWs).reverse

/-- The fixed informational reply of the empty-retrieval path. -/
def infoReply : Str :=
  ("No indexed news found for retrieval. Please run `npm run ingest` (and ensure NEWS_RSS_LIST and JINA_API_KEY are set).").toList

/-- The fixed friendly reply of the catch block. -/
def friendlyReply : Str :=
  ("The news model is busy right now. Please try again in a few seconds.").toList

/-- The `sources` array of the success response:
`docs.map((d, idx) => ({ id: 'S' + (idx+1), title, url, score }))`. -/
def sourcesOf {S : Type} (docs : List (RetrievalResult S)) : List (SourceRef S) :=
  mapWithIdx (fun idx d => ⟨'S' :: digitsOf (idx + 1), d.title, d.url, d.score⟩) 0 docs

/-- The `/api/chat` handler of `server.js`: validate the message, push the
user turn, retrieve, then either answer the empty-retrieval info message,
or build the grounded prompt, generate and answer with sources; any thrown
error (a failed store push, a retrieval failure, a generation failure) is
caught and turned into a status-200 friendly reply with no sources. -/
def chatHandler {S : Type} (fixed3 : S → Str) (deps : ChatDeps S) (sessionId : Str)
    (message : Option Str) : ChatRunResult S :=
  match message with
  | none => ⟨.badRequest 400 (("message is required").toList), deps.hist0, false, false, false⟩
  | some msg =>
    if jsTrim msg = [] then
      ⟨.badRequest 400 (("message is required").toList), deps.hist0, false, false, false⟩
    else
      match deps.pushUserOk with
      | false => ⟨.json 200 friendlyReply [] sessionId, deps.hist0, false, false, true⟩
      | true =>
        let hist1 := deps.hist0 ++ [⟨("user").toList, msg, deps.now1⟩]
        match deps.retrieveR with
        | .error _ => ⟨.json 200 friendlyReply [] sessionId, hist1, true, false, true⟩
        | .ok docs =>
          if docs.isEmpty then
            match deps.pushAssistantOk with
            | false => ⟨.json 200 friendlyReply [] sessionId, hist1, true, false, true⟩
            | true =>
              ⟨.json 200 infoReply [] sessionId,
                hist1 ++ [⟨("assistant").toList, infoReply, deps.now2⟩], true, false, false⟩
          else
            match deps.generateR (buildRagPrompt fixed3 msg docs) with
            | .error _ => ⟨.json 200 friendlyReply [] sessionId, hist1, true, true, true⟩
            | .ok reply =>
              match deps.pushAssistantOk with
              | false => ⟨.json 200 friendlyReply [] sessionId, hist1, true, true, true⟩
              | true =>
                ⟨.json 200 reply (sourcesOf docs) sessionId,
                  hist1 ++ [⟨("assistant").toList, reply, deps.now2⟩], true, true, false⟩

/-- C7: when the message is valid, the store pushes succeed and retrieval
returns zero results, the chat handler answers status 200 with the fixed
informational reply and an empty sources list, never invokes the generation
service, and appends the info reply to the session history. -/
theorem chat_empty_retrieval {S : Type} (fixed3 : S → Str) (deps : ChatDeps S)
    (sid msg : Str) (hmsg : jsTrim msg ≠ []) (hpu : deps.pushUserOk = true)
    (hr : deps.retrieveR = .ok []) (hpa : deps.pushAssistantOk = true) :
    (chatHandler fixed3 deps sid (some msg)).response = .json 200 infoReply [] sid ∧
    (chatHandler fixed3 deps sid (some msg)).genCalled = false ∧
    (chatHandler fixed3 deps sid (some msg)).hist =
      deps.hist0 ++ [⟨("user").toList, msg, deps.now1⟩,
        ⟨("assistant").toList, infoReply, deps.now2⟩] := by
  obtain ⟨h0, pu, rr, gr, pa, n1, n2⟩ := deps
  simp only at hpu hr hpa
  subst hpu hpa hr
  refine ⟨?_, ?_, ?_⟩ <;> simp [chatHandler, hmsg]

/-- C7 witness: empty retrieval on a concrete dependency bundle. -/
theorem chat_empty_retrieval_witness :
    (chatHandler (fun _ : Unit => ([] : Str))
        (⟨[], true, .ok [], fun _ => .ok [], true, 1, 2⟩ : ChatDeps Unit)
        ("s".toList) (some ("hi".toList))).response = .json 200 infoReply [] ("s".toList) ∧
    (chatHandler (fun _ : Unit => ([] : Str))
        (⟨[], true, .ok [], fun _ => .ok [], true, 1, 2⟩ : ChatDeps Unit)
        ("s".toList) (some ("hi".toList))).genCalled = false ∧
    (chatHandler (fun _ : Unit => ([] : Str))
        (⟨[], true, .ok [], fun _ => .ok [], true, 1, 2⟩ : ChatDeps Unit)
        ("s".toList) (some ("hi".toList))).hist =
      ([] : List HistEntry) ++ [⟨("user").toList, ("hi".toList), 1⟩,
        ⟨("assistant").toList, infoReply, 2⟩] :=
  chat_empty_retrieval (fun _ : Unit => ([] : Str))
    (⟨[], true, .ok [], fun _ => .ok [], true, 1, 2⟩ : ChatDeps Unit)
    ("s".toList) ("hi".toList) (by decide) rfl rfl rfl

/-- C8: for a valid (non-empty) message the chat endpoint never surfaces a
hard failure: whenever the catch block runs, the response is status 200 with
the fixed friendly reply and an empty sources list; any failing dependency —
the history push, retrieval (which wraps embedding), generation, or the
assistant push — makes the catch block run; and the response is always a
status-200 JSON body for that session. -/
theorem chat_degraded_on_error {S : Type} (fixed3 : S → Str) (deps : ChatDeps S)
    (sid msg : Str) (hmsg : jsTrim msg ≠ []) :
    ((chatHandler fixed3 deps sid (some msg)).caught = true →
      (chatHandler fixed3 deps sid (some msg)).response = .json 200 friendlyReply [] sid) ∧
    ((deps.pushUserOk = false ∨ deps.retrieveR = .error () ∨ deps.pushAssistantOk = false ∨
        (∃ docs, deps.retrieveR = .ok docs ∧ docs ≠ [] ∧
          deps.generateR (buildRagPrompt fixed3 msg docs) = .error ())) →
      (chatHandler fixed3 deps sid (some msg)).caught = true) ∧
    (∃ rep srcs, (chatHandler fixed3 deps sid (some msg)).response = .json 200 rep srcs sid) := by
  obtain ⟨h0, pu, rr, gr, pa, n1, n2⟩ := deps
  cases pu with
  | false =>
    exact ⟨fun _ => by simp [chatHandler, hmsg], fun _ => by simp [chatHandler, hmsg],
      ⟨friendlyReply, [], by simp [chatHandler, hmsg]⟩⟩
  | true =>
    cases rr with
    | error e =>
      exact ⟨fun _ => by simp [chatHandler, hmsg], fun _ => by simp [chatHandler, hmsg],
        ⟨friendlyReply, [], by simp [chatHandler, hmsg]⟩⟩
    | ok docs =>
      cases docs with
      | nil =>
        cases pa with
        | false =>
          exact ⟨fun _ => by simp [chatHandler, hmsg], fun _ => by simp [chatHandler, hmsg],
            ⟨friendlyReply, [], by simp [chatHandler, hmsg]⟩⟩
        | true =>
          refine ⟨fun hc => ?_, fun hd => ?_, ⟨infoReply, [], by simp [chatHandler, hmsg]⟩⟩
          · simp [chatHandler, hmsg] at hc
          · rcases hd with h | h | h | ⟨docs2, hdocs, hne, _⟩ <;> simp_all
      | cons d ds =>
        rcases hgen : gr (buildRagPrompt fixed3 msg (d :: ds)) with e2 | rep
        · exact ⟨fun _ => by simp [chatHandler, hmsg, hgen],
            fun _ => by simp [chatHandler, hmsg, hgen],
            ⟨friendlyReply, [], by simp [chatHandler, hmsg, hgen]⟩⟩
        · cases pa with
          | false =>
            exact ⟨fun _ => by simp [chatHandler, hmsg, hgen],
              fun _ => by simp [chatHandler, hmsg, hgen],
              ⟨friendlyReply, [], by simp [chatHandler, hmsg, hgen]⟩⟩
          | true =>
            refine ⟨fun hc => ?_, fun hd => ?_,
              ⟨rep, sourcesOf (d :: ds), by simp [chatHandler, hmsg, hgen]⟩⟩
            · simp [chatHandler, hmsg, hgen] at hc
            · rcases hd with h | h | h | ⟨docs2, hdocs, hne, hgen2⟩
              · simp at h
              · simp at h
              · simp at h
              · have : docs2 = d :: ds := by
                  injection hdocs with h2
                  exact h2.symm
                subst this
                simp [hgen] at hgen2

/-- C8 witness: a failing retrieval on a concrete dependency bundle is caught
and degraded to the friendly 200 reply with no sources. -/
theorem chat_degraded_on_error_witness :
    ((chatHandler (fun _ : Unit => ([] : Str))
        (⟨[], true, .error (), fun _ => .ok [], true, 1, 2⟩ : ChatDeps Unit)
        ("s".toList) (some ("hi".toList))).caught = true →
      (chatHandler (fun _ : Unit => ([] : Str))
        (⟨[], true, .error (), fun _ => .ok [], true, 1, 2⟩ : ChatDeps Unit)
        ("s".toList) (some ("hi".toList))).response =
          .json 200 friendlyReply [] ("s".toList)) ∧
    (((⟨[], true, .error (), fun _ => .ok [], true, 1, 2⟩ : ChatDeps Unit).pushUserOk = false ∨
        (⟨[], true, .error (), fun _ => .ok [], true, 1, 2⟩ : ChatDeps Unit).retrieveR = .error () ∨
        (⟨[], true, .error (), fun _ => .ok [], true, 1, 2⟩ : ChatDeps Unit).pushAssistantOk = false ∨
        (∃ docs, (⟨[], true, .error (), fun _ => .ok [], true, 1, 2⟩ : ChatDeps Unit).retrieveR =
            .ok docs ∧ docs ≠ [] ∧
          (⟨[], true, .error (), fun _ => .ok [], true, 1, 2⟩ : ChatDeps Unit).generateR
            (buildRagPrompt (fun _ : Unit => ([] : Str)) ("hi".toList) docs) = .error ())) →
      (chatHandler (fun _ : Unit => ([] : Str))
        (⟨[], true, .error (), fun _ => .ok [], true, 1, 2⟩ : ChatDeps Unit)
        ("s".toList) (some ("hi".toList))).caught = true) ∧
    (∃ rep srcs, (chatHandler (fun _ : Unit => ([] : Str))
        (⟨[], true, .error (), fun _ => .ok [], true, 1, 2⟩ : ChatDeps Unit)
        ("s".toList) (some ("hi".toList))).response = .json 200 rep srcs ("s".toList)) :=
  chat_degraded_on_error (fun _ : Unit => ([] : Str))
    (⟨[], true, .error (), fun _ => .ok [], true, 1, 2⟩ : ChatDeps Unit)
    ("s".toList) ("hi".toList) (by decide)

/-- C10: the user turn is pushed to the session history before retrieval
begins (if the push fails, retrieval is never reached; if it succeeds,
retrieval is always reached), so on the degraded error path the stored
history is exactly the old history plus the unanswered user entry — the
friendly reply is never appended — while on the empty-retrieval path and the
success path the assistant's reply (the info message resp. the generated
text) is appended after the user entry. -/
theorem chat_history_error_path {S : Type} (fixed3 : S → Str) (deps : ChatDeps S)
    (sid msg : Str) (hmsg : jsTrim msg ≠ []) :
    (deps.pushUserOk = false →
      (chatHandler fixed3 deps sid (some msg)).retrieveCalled = false) ∧
    (deps.pushUserOk = true →
      (chatHandler fixed3 deps sid (some msg)).retrieveCalled = true) ∧
    (deps.pushUserOk = true → (chatHandler fixed3 deps sid (some msg)).caught = true →
      (chatHandler fixed3 deps sid (some msg)).hist =
        deps.hist0 ++ [⟨("user").toList, msg, deps.now1⟩] ∧
      (chatHandler fixed3 deps sid (some msg)).response = .json 200 friendlyReply [] sid) ∧
    (deps.pushUserOk = true → deps.retrieveR = .ok [] → deps.pushAssistantOk = true →
      (chatHandler fixed3 deps sid (some msg)).hist =
        deps.hist0 ++ [⟨("user").toList, msg, deps.now1⟩,
          ⟨("assistant").toList, infoReply, deps.now2⟩]) ∧
    (∀ docs rep, deps.pushUserOk = true → deps.retrieveR = .ok docs → docs ≠ [] →
      deps.generateR (buildRagPrompt fixed3 msg docs) = .ok rep →
      deps.pushAssistantOk = true →
      (chatHandler fixed3 deps sid (some msg)).hist =
        deps.hist0 ++ [⟨("user").toList, msg, deps.now1⟩,
          ⟨("assistant").toList, rep, deps.now2⟩]) := by
  obtain ⟨h0, pu, rr, gr, pa, n1, n2⟩ := deps
  refine ⟨?_, ?_, ?_, ?_, ?_⟩
  · intro hpu
    simp only at hpu
    subst hpu
    simp [chatHandler, hmsg]
  · intro hpu
    simp only at hpu
    subst hpu
    rcases rr with e | docs
    · simp [chatHandler, hmsg]
    · rcases docs with _ | ⟨d, ds⟩
      · cases pa <;> simp [chatHandler, hmsg]
      · rcases hgen : gr (buildRagPrompt fixed3 msg (d :: ds)) with e2 | rep
        · simp [chatHandler, hmsg, hgen]
        · cases pa <;> simp [chatHandler, hmsg, hgen]
  · intro hpu hc
    simp only at hpu
    subst hpu
    rcases rr with e | docs
    · exact ⟨by simp [chatHandler, hmsg], by simp [chatHandler, hmsg]⟩
    · rcases docs with _ | ⟨d, ds⟩
      · cases pa with
        | false => exact ⟨by simp [chatHandler, hmsg], by simp [chatHandler, hmsg]⟩
        | true => simp [chatHandler, hmsg] at hc
      · rcases hgen : gr (buildRagPrompt fixed3 msg (d :: ds)) with e2 | rep
        · exact ⟨by simp [chatHandler, hmsg, hgen], by simp [chatHandler, hmsg, hgen]⟩
        · cases pa with
          | false =>
            exact ⟨by simp [chatHandler, hmsg, hgen], by simp [chatHandler, hmsg, hgen]⟩
          | true => simp [chatHandler, hmsg, hgen] at hc
  · intro hpu hr hpa
    simp only at hpu hr hpa
    subst hpu hpa hr
    simp [chatHandler, hmsg]
  · intro docs rep hpu hr hne hgen hpa
    simp only at hpu hr hpa hgen
    subst hpu hpa hr
    rcases docs with _ | ⟨d, ds⟩
    · exact absurd rfl hne
    · simp [chatHandler, hmsg, hgen]

/-- C10 witness: a failing retrieval after a successful user push leaves the
history ending with the unanswered user entry while the client gets the
friendly reply. -/
theorem chat_history_error_path_witness :
    ((⟨[], true, .error (), fun _ => .ok [], true, 1, 2⟩ : ChatDeps Unit).pushUserOk = true →
      (chatHandler (fun _ : Unit => ([] : Str))
        (⟨[], true, .error (), fun _ => .ok [], true, 1, 2⟩ : ChatDeps Unit)
        ("s".toList) (some ("hi".toList))).retrieveCalled = true) ∧
    ((⟨[], true, .error (), fun _ => .ok [], true, 1, 2⟩ : ChatDeps Unit).pushUserOk = true →
      (chatHandler (fun _ : Unit => ([] : Str))
        (⟨[], true, .error (), fun _ => .ok [], true, 1, 2⟩ : ChatDeps Unit)
        ("s".toList) (some ("hi".toList))).caught = true →
      (chatHandler (fun _ : Unit => ([] : Str))
        (⟨[], true, .error (), fun _ => .ok [], true, 1, 2⟩ : ChatDeps Unit)
        ("s".toList) (some ("hi".toList))).hist =
        ([] : List HistEntry) ++ [⟨("user").toList, ("hi".toList), 1⟩] ∧
      (chatHandler (fun _ : Unit => ([] : Str))
        (⟨[], true, .error (), fun _ => .ok [], true, 1, 2⟩ : ChatDeps Unit)
        ("s".toList) (some ("hi".toList))).response =
          .json 200 friendlyReply [] ("s".toList)) := by
  have h := chat_history_error_path (fun _ : Unit => ([] : Str))
    (⟨[], true, .error (), fun _ => .ok [], true, 1, 2⟩ : ChatDeps Unit)
    ("s".toList) ("hi".toList) (by decide)
  exact ⟨h.2.1, h.2.2.1⟩
